import Mathlib

/-!
Shallow embedding of the `websocket-tester` backend
(`src/backend/{dbQueries,api,ingest,dailySchedule}.js`).

The relational store is modelled as a `List Game` in insertion order.
SQL `ORDER BY` clauses are modelled by the stable `List.insertionSort`
on the corresponding key; the keys used by `getAllGames` are total up to
row identity because `(league, external_game_id)` is the upsert key.
Timestamps are integers (epoch milliseconds).
-/

namespace WsTester

/-- A row of the `games` table (see `dbQueries.js`, `upsertGame`). -/
structure Game where
  league : String
  external_game_id : String
  link : Option String
  home_team_name : String
  home_team_logo : Option String
  home_team_score : Int
  away_team_name : String
  away_team_logo : Option String
  away_team_score : Int
  start_time : Int
  short_detail : String
  state : String
deriving DecidableEq, Repr

/-- `dbQueries.js` line 3: `const excludedStates = ['post', 'completed', 'final']`. -/
def excludedStates : List String := ["post", "completed", "final"]

/-- `api.js` line 24: the league tokens recognised by `getFilteredGames`. -/
def knownLeagues : List String := ["NFL", "NBA", "MLB", "NHL", "MLS", "NCAAF", "NCAAB"]

/-- `CASE WHEN state = 'in' THEN 1 ELSE 2 END` from `getAllGames`' ORDER BY. -/
def stateRank (g : Game) : Nat := if g.state = "in" then 1 else 2

/-- The full ORDER BY key of `getAllGames`:
live-first rank, then league, then start time, then external game id. -/
def gameKey (g : Game) : Lex (Nat × Lex (String × Lex (Int × String))) :=
  toLex (stateRank g, toLex (g.league, toLex (g.start_time, g.external_game_id)))

/-- Row order used by `getAllGames` (lexicographic on `gameKey`). -/
def allOrder (a b : Game) : Prop := gameKey a ≤ gameKey b

instance : DecidableRel allOrder := fun a b =>
  inferInstanceAs (Decidable (gameKey a ≤ gameKey b))

instance : IsTotal Game allOrder := ⟨fun a b => le_total (gameKey a) (gameKey b)⟩

instance : IsTrans Game allOrder := ⟨fun _ _ _ hab hbc => le_trans hab hbc⟩

/-- Row order used by `getGamesByLeague` (`ORDER BY start_time ASC` only). -/
def startOrder (a b : Game) : Prop := a.start_time ≤ b.start_time

instance : DecidableRel startOrder := fun a b =>
  inferInstanceAs (Decidable (a.start_time ≤ b.start_time))

instance : IsTotal Game startOrder := ⟨fun a b => le_total a.start_time b.start_time⟩

instance : IsTrans Game startOrder := ⟨fun _ _ _ hab hbc => le_trans hab hbc⟩

/-- `dbQueries.js` `getAllGames`: all rows, ordered live-first, then by
league, start time, external game id. -/
def getAllGames (db : List Game) : List Game :=
  List.insertionSort allOrder db

/-- `dbQueries.js` `getGamesByLeague`: rows of one league, ordered by
start time only. -/
def getGamesByLeague (db : List Game) (leagueName : String) : List Game :=
  List.insertionSort startOrder (db.filter (fun g => g.league = leagueName))

/-- `['NFL', 'NBA', 'MLB', 'NHL', 'MLS', 'NCAAF', 'NCAAB'].includes(f)`
(`api.js` line 24). -/
def isLeagueToken (f : String) : Bool := knownLeagues.contains f

/-- `f.startsWith('state_')` (`api.js` line 27), expressed as a character
prefix check so that it evaluates. -/
def isStateTag (f : String) : Bool := "state_".data.isPrefixOf f.data

/-- `f.replace('state_', '')` as applied in `api.js` line 27: every string it
is applied to starts with `"state_"`, so replacing the first occurrence is
dropping the 6-character prefix. -/
def stripStateTag (f : String) : String := f.drop 6

/-- `api.js` `getFilteredGames` (lines 16–60): route the token list to the
appropriate store queries.  League tokens are looked up one query per token
and concatenated; `state_`-prefixed tokens further restrict by state. -/
def getFilteredGames (db : List Game) (filters : List String) : List Game :=
  if filters.isEmpty then
    getAllGames db
  else
    let leagueFilters := filters.filter isLeagueToken
    let stateFilters := (filters.filter isStateTag).map stripStateTag
    if leagueFilters.isEmpty then
      if stateFilters.isEmpty then
        getAllGames db
      else
        (getAllGames db).filter (fun g => stateFilters.contains g.state)
    else
      let allFilteredGames :=
        leagueFilters.foldl (fun acc league => acc ++ getGamesByLeague db league) []
      if stateFilters.isEmpty then
        allFilteredGames
      else
        allFilteredGames.filter (fun g => stateFilters.contains g.state)

/-- A concrete game record used in several concrete evaluations. -/
def mkGame (league id : String) (start : Int) (state : String) : Game :=
  { league := league
    external_game_id := id
    link := none
    home_team_name := "H"
    home_team_logo := none
    home_team_score := 0
    away_team_name := "A"
    away_team_logo := none
    away_team_score := 0
    start_time := start
    short_detail := "d"
    state := state }

/-- Sample rows shaped like the spec's scenario: an in-progress NFL game, a
finished NFL game with an earlier start time, and an upcoming NBA game. -/
def gNFLin : Game := mkGame "NFL" "2" 200 "in"

def gNFLpost : Game := mkGame "NFL" "1" 100 "post"

def gNBApre : Game := mkGame "NBA" "3" 150 "pre"

def sampleDb : List Game := [gNFLin, gNFLpost, gNBApre]

/-- Membership in `knownLeagues` pins the token to one of seven strings,
none of which starts with `"state_"`. -/
theorem known_league_not_state_tag {L : String}
    (hL : isLeagueToken L = true) : isStateTag L = false := by
  have hmem : L ∈ knownLeagues := by
    simpa [isLeagueToken] using hL
  fin_cases hmem <;> decide

/-- A single known-league token routes to `getGamesByLeague` alone. -/
theorem getFilteredGames_single_league (db : List Game) (L : String)
    (hL : isLeagueToken L = true) :
    getFilteredGames db [L] = getGamesByLeague db L := by
  have hs : isStateTag L = false := known_league_not_state_tag hL
  simp [getFilteredGames, hL, hs]

end WsTester

namespace WsTester

/-- Accumulating league queries with a fold is concatenating the per-league
query results. -/
theorem foldl_append_eq_flatten (f : String → List Game) :
    ∀ (LS : List String) (acc : List Game),
      LS.foldl (fun acc x => acc ++ f x) acc = acc ++ (LS.map f).flatten
  | [], acc => by simp
  | x :: LS, acc => by
    simp [foldl_append_eq_flatten f LS, List.append_assoc]

/-- Branch of `getFilteredGames`: with no league and no state tokens the
whole store is returned (this covers the empty selection and selections of
only unrecognized tokens). -/
theorem getFilteredGames_all (db : List Game) (F : List String)
    (hLF : F.filter isLeagueToken = []) (hSF : F.filter isStateTag = []) :
    getFilteredGames db F = getAllGames db := by
  by_cases hne : F = []
  · subst hne
    simp [getFilteredGames]
  · have h1 : F.isEmpty = false := List.isEmpty_eq_false.mpr hne
    simp [getFilteredGames, h1, hLF, hSF]

/-- Branch of `getFilteredGames`: state tokens but no league tokens. -/
theorem getFilteredGames_state_only (db : List Game) (F : List String)
    (hLF : F.filter isLeagueToken = []) (hSF : F.filter isStateTag ≠ []) :
    getFilteredGames db F =
      (getAllGames db).filter
        (fun g => ((F.filter isStateTag).map stripStateTag).contains g.state) := by
  have hne : F ≠ [] := by
    intro hc
    exact hSF (by simp [hc])
  have h1 : F.isEmpty = false := List.isEmpty_eq_false.mpr hne
  have h3 : ((F.filter isStateTag).map stripStateTag).isEmpty = false :=
    List.isEmpty_eq_false.mpr (by simpa using hSF)
  simp [getFilteredGames, h1, hLF, h3]

/-- Branch of `getFilteredGames`: league tokens but no state tokens; the
result is the concatenation of one `getGamesByLeague` query per token. -/
theorem getFilteredGames_league_only (db : List Game) (F : List String)
    (hLF : F.filter isLeagueToken ≠ []) (hSF : F.filter isStateTag = []) :
    getFilteredGames db F =
      ((F.filter isLeagueToken).map (getGamesByLeague db)).flatten := by
  have hne : F ≠ [] := by
    intro hc
    exact hLF (by simp [hc])
  have h1 : F.isEmpty = false := List.isEmpty_eq_false.mpr hne
  have h2 : (F.filter isLeagueToken).isEmpty = false := List.isEmpty_eq_false.mpr hLF
  simp [getFilteredGames, h1, h2, hSF, foldl_append_eq_flatten]

/-- Branch of `getFilteredGames`: league and state tokens together. -/
theorem getFilteredGames_league_state (db : List Game) (F : List String)
    (hLF : F.filter isLeagueToken ≠ []) (hSF : F.filter isStateTag ≠ []) :
    getFilteredGames db F =
      (((F.filter isLeagueToken).map (getGamesByLeague db)).flatten).filter
        (fun g => ((F.filter isStateTag).map stripStateTag).contains g.state) := by
  have hne : F ≠ [] := by
    intro hc
    exact hLF (by simp [hc])
  have h1 : F.isEmpty = false := List.isEmpty_eq_false.mpr hne
  have h2 : (F.filter isLeagueToken).isEmpty = false := List.isEmpty_eq_false.mpr hLF
  have h3 : ((F.filter isStateTag).map stripStateTag).isEmpty = false :=
    List.isEmpty_eq_false.mpr (by simpa using hSF)
  simp [getFilteredGames, h1, h2, h3, foldl_append_eq_flatten]

/-- Every row returned by `getGamesByLeague` carries the queried league. -/
theorem league_of_mem_getGamesByLeague {db : List Game} {L : String} {g : Game}
    (h : g ∈ getGamesByLeague db L) : g.league = L := by
  unfold getGamesByLeague at h
  rw [List.mem_insertionSort, List.mem_filter] at h
  simpa using h.2

/-- The `getGamesByLeague` result is sorted by start time. -/
theorem sorted_getGamesByLeague (db : List Game) (L : String) :
    List.Sorted startOrder (getGamesByLeague db L) :=
  List.sorted_insertionSort startOrder _

/-- The `getAllGames` result is sorted by the full ORDER BY key. -/
theorem sorted_getAllGames (db : List Game) :
    List.Sorted allOrder (getAllGames db) :=
  List.sorted_insertionSort allOrder db

/-- Re-sorting the `getAllGames` output changes nothing. -/
theorem getAllGames_idem (db : List Game) :
    getAllGames (getAllGames db) = getAllGames db :=
  (sorted_getAllGames db).insertionSort_eq

/-- Rows of leagues outside `LF` never survive a league-equality filter. -/
theorem flatten_byLeague_filter_not_mem (db : List Game) (L : String) :
    ∀ (LF : List String), L ∉ LF →
      ((LF.map (getGamesByLeague db)).flatten).filter (fun g => g.league = L) = []
  | [], _ => by simp
  | L' :: LF, h => by
    have hL' : L' ≠ L := fun hc => h (hc ▸ List.mem_cons_self L' LF)
    have hrest : L ∉ LF := fun hc => h (List.mem_cons_of_mem L' hc)
    simp only [List.map_cons, List.flatten_cons, List.filter_append]
    rw [flatten_byLeague_filter_not_mem db L LF hrest, List.append_nil]
    refine List.filter_eq_nil_iff.mpr (fun g hg => ?_)
    have := league_of_mem_getGamesByLeague hg
    simp [this, hL']

/-- Filtering the concatenation of per-league blocks by one of the requested
leagues recovers exactly that league's block (when tokens are not repeated). -/
theorem flatten_byLeague_filter (db : List Game) (L : String) :
    ∀ (LF : List String), LF.Nodup → L ∈ LF →
      ((LF.map (getGamesByLeague db)).flatten).filter (fun g => g.league = L) =
        getGamesByLeague db L
  | [], _, hmem => absurd hmem (List.not_mem_nil L)
  | L' :: LF, hnd, hmem => by
    rw [List.nodup_cons] at hnd
    simp only [List.map_cons, List.flatten_cons, List.filter_append]
    rcases List.mem_cons.mp hmem with heq | hmem'
    · subst heq
      rw [flatten_byLeague_filter_not_mem db L LF hnd.1, List.append_nil]
      refine List.filter_eq_self.mpr (fun g hg => ?_)
      have := league_of_mem_getGamesByLeague hg
      simp [this]
    · have hL' : L' ≠ L := fun hc => hnd.1 (hc ▸ hmem')
      rw [flatten_byLeague_filter db L LF hnd.2 hmem']
      have hnil : (getGamesByLeague db L').filter (fun g => g.league = L) = [] := by
        refine List.filter_eq_nil_iff.mpr (fun g hg => ?_)
        have := league_of_mem_getGamesByLeague hg
        simp [this, hL']
      rw [hnil, List.nil_append]

/-- The tokens that influence `getFilteredGames`: known league codes and
anything bearing the `state_` prefix (whether or not the suffix names a
real state). -/
def recognizedByCode (f : String) : Bool :=
  isLeagueToken f || isStateTag f

/-- Dropping tokens the code does not react to leaves the league sub-list
unchanged. -/
theorem league_filter_of_recognized (F : List String) :
    (F.filter recognizedByCode).filter isLeagueToken = F.filter isLeagueToken := by
  rw [List.filter_filter]
  refine List.filter_congr (fun f _ => ?_)
  cases h : isLeagueToken f <;> simp [recognizedByCode, h]

/-- Dropping tokens the code does not react to leaves the state-tag sub-list
unchanged. -/
theorem state_filter_of_recognized (F : List String) :
    (F.filter recognizedByCode).filter isStateTag = F.filter isStateTag := by
  rw [List.filter_filter]
  refine List.filter_congr (fun f _ => ?_)
  cases h : isStateTag f <;> simp [recognizedByCode, h]

/-- C1 counterexample: with the stored games
`[NFL/in @200, NFL/post @100, NBA/pre @150]` and selection `["NFL"]`,
the result is the two NFL games but the finished game comes first
(`getGamesByLeague` orders by start time only), so the claimed
live-games-first ordering of filtered results fails. -/
theorem c1_league_filter_not_live_first :
    getFilteredGames sampleDb ["NFL"] = [gNFLpost, gNFLin] ∧
      gNFLpost.state = "post" ∧ gNFLin.state = "in" := by
  refine ⟨?_, rfl, rfl⟩
  decide

/-- C1 amended: only the empty selection is ordered live-first, then league,
then start time, then external game id (the `getAllGames` ORDER BY); a
single known-league selection returns exactly that league's stored games
ordered by start time alone, so a finished game can precede a live one. -/
theorem c1_ordering_amended (db : List Game) (L : String)
    (hL : isLeagueToken L = true) :
    (getFilteredGames db []).Perm db ∧
      List.Sorted allOrder (getFilteredGames db []) ∧
      (getFilteredGames db [L]).Perm (db.filter (fun g => g.league = L)) ∧
      List.Sorted startOrder (getFilteredGames db [L]) := by
  have hempty : getFilteredGames db [] = getAllGames db := by
    simp [getFilteredGames]
  have hsingle : getFilteredGames db [L] = getGamesByLeague db L :=
    getFilteredGames_single_league db L hL
  refine ⟨?_, ?_, ?_, ?_⟩
  · rw [hempty]
    exact List.perm_insertionSort allOrder db
  · rw [hempty]
    exact List.sorted_insertionSort allOrder db
  · rw [hsingle]
    exact List.perm_insertionSort startOrder _
  · rw [hsingle]
    exact List.sorted_insertionSort startOrder _

/-- Witness for `c1_ordering_amended` at `db = [gNFLin]`, `L = "NFL"`. -/
theorem c1_ordering_amended_witness :
    isLeagueToken "NFL" = true ∧
      ((getFilteredGames [gNFLin] []).Perm [gNFLin] ∧
        List.Sorted allOrder (getFilteredGames [gNFLin] []) ∧
        (getFilteredGames [gNFLin] ["NFL"]).Perm
          ([gNFLin].filter (fun g => g.league = "NFL")) ∧
        List.Sorted startOrder (getFilteredGames [gNFLin] ["NFL"])) :=
  ⟨by decide, c1_ordering_amended [gNFLin] "NFL" (by decide)⟩

/-- Modelled from the spec: the game-state enumeration is `pre | in | post`
(spec §3), so these are the known game states a `state_` token can map to. -/
def specGameStates : List String := ["pre", "in", "post"]

/-- Modelled from the spec: a filter token is recognized when it is a known
league token or a token mapping to a known game state (spec §3, §4.3).
Used only to compare the spec's notion of "unrecognized" with the code's. -/
def specRecognizedToken (f : String) : Bool :=
  isLeagueToken f || (isStateTag f && specGameStates.contains (stripStateTag f))

/-- C7 counterexample: the token `"state_xyz"` is neither a known league
token nor maps to a known game state, yet it restricts the result: with a
single stored `pre` game the selection `["state_xyz"]` returns nothing,
while the selection with unrecognized tokens removed returns the game. -/
theorem c7_state_tag_token_restricts :
    specRecognizedToken "state_xyz" = false ∧
      getFilteredGames [gNBApre] ["state_xyz"] = [] ∧
      getFilteredGames [gNBApre] (["state_xyz"].filter specRecognizedToken) = [gNBApre] :=
  ⟨by decide, by decide, by decide⟩

/-- C7 amended: the tokens `getFilteredGames` ignores are exactly those that
are neither known league tokens nor bear the `state_` prefix; removing those
tokens never changes the result.  A `state_`-prefixed token always acts as a
state restriction, even when its suffix names no known state. -/
theorem c7_unrecognized_tokens_ignored (db : List Game) (F : List String) :
    getFilteredGames db F = getFilteredGames db (F.filter recognizedByCode) := by
  by_cases hLF : F.filter isLeagueToken = []
  · by_cases hSF : F.filter isStateTag = []
    · rw [getFilteredGames_all db F hLF hSF,
        getFilteredGames_all db (F.filter recognizedByCode)
          (by rw [league_filter_of_recognized, hLF])
          (by rw [state_filter_of_recognized, hSF])]
    · rw [getFilteredGames_state_only db F hLF hSF,
        getFilteredGames_state_only db (F.filter recognizedByCode)
          (by rw [league_filter_of_recognized, hLF])
          (by rw [state_filter_of_recognized]; exact hSF),
        state_filter_of_recognized]
  · by_cases hSF : F.filter isStateTag = []
    · rw [getFilteredGames_league_only db F hLF hSF,
        getFilteredGames_league_only db (F.filter recognizedByCode)
          (by rw [league_filter_of_recognized]; exact hLF)
          (by rw [state_filter_of_recognized, hSF]),
        league_filter_of_recognized]
    · rw [getFilteredGames_league_state db F hLF hSF,
        getFilteredGames_league_state db (F.filter recognizedByCode)
          (by rw [league_filter_of_recognized]; exact hLF)
          (by rw [state_filter_of_recognized]; exact hSF),
        league_filter_of_recognized, state_filter_of_recognized]

end WsTester

namespace WsTester

/-- C8 counterexample: with the stored games of `sampleDb` and the selection
`["NFL", "NFL"]` (a repeated league token), re-evaluating the filter on its
own output doubles the duplicated rows again, so filter evaluation is not
idempotent as claimed. -/
theorem c8_not_idempotent :
    getFilteredGames (getFilteredGames sampleDb ["NFL", "NFL"]) ["NFL", "NFL"] ≠
      getFilteredGames sampleDb ["NFL", "NFL"] := by
  decide

/-- C8 amended: filter evaluation is idempotent for every selection whose
league tokens are pairwise distinct (in particular for selections that are
sets of tokens); only repeated league tokens break idempotence. -/
theorem c8_idempotent_of_nodup (db : List Game) (F : List String)
    (h : (F.filter isLeagueToken).Nodup) :
    getFilteredGames (getFilteredGames db F) F = getFilteredGames db F := by
  by_cases hLF : F.filter isLeagueToken = []
  · by_cases hSF : F.filter isStateTag = []
    · rw [getFilteredGames_all db F hLF hSF, getFilteredGames_all (getAllGames db) F hLF hSF,
        getAllGames_idem]
    · rw [getFilteredGames_state_only db F hLF hSF]
      rw [getFilteredGames_state_only _ F hLF hSF]
      have hsorted :
          getAllGames ((getAllGames db).filter
            (fun g => ((F.filter isStateTag).map stripStateTag).contains g.state)) =
            (getAllGames db).filter
              (fun g => ((F.filter isStateTag).map stripStateTag).contains g.state) :=
        ((sorted_getAllGames db).filter _).insertionSort_eq
      rw [hsorted, List.filter_filter]
      exact List.filter_congr (fun g _ => by
        cases hg : ((F.filter isStateTag).map stripStateTag).contains g.state <;>
          simp [hg])
  · by_cases hSF : F.filter isStateTag = []
    · rw [getFilteredGames_league_only db F hLF hSF]
      rw [getFilteredGames_league_only _ F hLF hSF]
      congr 1
      refine List.map_congr_left (fun L hL => ?_)
      show List.insertionSort startOrder _ = _
      rw [flatten_byLeague_filter db L _ h hL]
      exact (sorted_getGamesByLeague db L).insertionSort_eq
    · rw [getFilteredGames_league_state db F hLF hSF]
      rw [getFilteredGames_league_state _ F hLF hSF]
      have hblock : ∀ L ∈ F.filter isLeagueToken,
          getGamesByLeague
              ((((F.filter isLeagueToken).map (getGamesByLeague db)).flatten).filter
                (fun g => ((F.filter isStateTag).map stripStateTag).contains g.state)) L =
            (getGamesByLeague db L).filter
              (fun g => ((F.filter isStateTag).map stripStateTag).contains g.state) := by
        intro L hL
        show List.insertionSort startOrder _ = _
        have hcomm :
            ((((F.filter isLeagueToken).map (getGamesByLeague db)).flatten).filter
                (fun g => ((F.filter isStateTag).map stripStateTag).contains g.state)).filter
              (fun g => g.league = L) =
              ((((F.filter isLeagueToken).map (getGamesByLeague db)).flatten).filter
                (fun g => g.league = L)).filter
                (fun g => ((F.filter isStateTag).map stripStateTag).contains g.state) := by
          rw [List.filter_filter, List.filter_filter]
          exact List.filter_congr (fun g _ => Bool.and_comm _ _)
        rw [hcomm, flatten_byLeague_filter db L _ h hL]
        exact ((sorted_getGamesByLeague db L).filter _).insertionSort_eq
      rw [List.map_congr_left hblock]
      have hmaps :
          (F.filter isLeagueToken).map
              (fun L => (getGamesByLeague db L).filter
                (fun g => ((F.filter isStateTag).map stripStateTag).contains g.state)) =
            ((F.filter isLeagueToken).map (getGamesByLeague db)).map
              (List.filter
                (fun g => ((F.filter isStateTag).map stripStateTag).contains g.state)) := by
        rw [List.map_map]
        rfl
      rw [hmaps, ← List.filter_flatten, List.filter_filter]
      exact List.filter_congr (fun g _ => by
        cases hg : ((F.filter isStateTag).map stripStateTag).contains g.state <;>
          simp [hg])

/-- C8 witness: idempotence at the concrete store `sampleDb` and the
duplicate-free selection `["NFL"]`. -/
theorem c8_idempotent_of_nodup_witness :
    (["NFL"].filter isLeagueToken).Nodup ∧
      getFilteredGames (getFilteredGames sampleDb ["NFL"]) ["NFL"] =
        getFilteredGames sampleDb ["NFL"] :=
  ⟨by decide, c8_idempotent_of_nodup sampleDb ["NFL"] (by decide)⟩

/-- C10: a selection consisting of known league tokens evaluates to the
concatenation of one `getGamesByLeague` query per token occurrence, so a
repeated token contributes its league's rows once per occurrence and the
output can contain duplicate game records. -/
theorem c10_per_token_concatenation (db : List Game) (LS : List String)
    (h1 : LS ≠ []) (h2 : ∀ L ∈ LS, isLeagueToken L = true) :
    getFilteredGames db LS = (LS.map (getGamesByLeague db)).flatten := by
  have hLF : LS.filter isLeagueToken = LS := List.filter_eq_self.mpr h2
  have hSF : LS.filter isStateTag = [] :=
    List.filter_eq_nil_iff.mpr (fun L hL => by
      simp [known_league_not_state_tag (h2 L hL)])
  rw [getFilteredGames_league_only db LS (by rw [hLF]; exact h1) hSF, hLF]

/-- C10 witness: with the store `sampleDb` and the repeated token selection
`["NFL", "NFL"]`, the result is the NFL block twice, a list with each NFL
game duplicated. -/
theorem c10_per_token_concatenation_witness :
    (["NFL", "NFL"] ≠ ([] : List String)) ∧
      (∀ L ∈ ["NFL", "NFL"], isLeagueToken L = true) ∧
      getFilteredGames sampleDb ["NFL", "NFL"] =
        (["NFL", "NFL"].map (getGamesByLeague sampleDb)).flatten :=
  ⟨by decide, by decide,
    c10_per_token_concatenation sampleDb ["NFL", "NFL"] (by decide) (by decide)⟩

end WsTester

namespace WsTester

/-- One entry of `leagueConfigs` as consumed by `ingest.js`: a display name
and an upstream slug (`getSlugForLeague` can produce `null`). -/
structure LeagueCfg where
  name : String
  slug : Option String
deriving DecidableEq, Repr

/-- `dbQueries.js` `clearTable`: `DELETE FROM games WHERE league IN (names)`. -/
def clearTable (leaguesToIngest : List LeagueCfg) (db : List Game) : List Game :=
  db.filter (fun g => !(leaguesToIngest.map (fun c => c.name)).contains g.league)

/-- `dbQueries.js` `upsertGame`: insert, or on conflict of
`(league, external_game_id)` overwrite every other column (which amounts to
replacing the conflicting row with the new record). -/
def upsertGame (g : Game) (db : List Game) : List Game :=
  if db.any (fun r => r.league = g.league && r.external_game_id = g.external_game_id) then
    db.map (fun r =>
      if r.league = g.league && r.external_game_id = g.external_game_id then g else r)
  else
    db ++ [g]

/-- The per-league loop body of `ingest.js` `ingestData` (lines 18–64).
`fetch cfg` stands for the axios request plus the normalization of the
response into game records; `Except.error` is a thrown exception.  The
single try/catch wraps the whole loop, so the first failure leaves the
store as it stands and the remaining leagues are never processed. -/
def ingestLoop (fetch : LeagueCfg → Except String (List Game)) :
    List LeagueCfg → List Game → List Game
  | [], db => db
  | cfg :: rest, db =>
    match fetch cfg with
    | Except.error _ => db
    | Except.ok games => ingestLoop fetch rest (games.foldl (fun d g => upsertGame g d) db)

/-- `ingest.js` `ingestData`: clear every batch league's rows up front, then
fetch and upsert league by league inside one try/catch. -/
def ingestData (fetch : LeagueCfg → Except String (List Game))
    (leaguesToIngest : List LeagueCfg) (db : List Game) : List Game :=
  ingestLoop fetch leaguesToIngest (clearTable leaguesToIngest db)

def cfgNFL : LeagueCfg := ⟨"NFL", some "nfl"⟩

def cfgNBA : LeagueCfg := ⟨"NBA", some "nba"⟩

/-- A fetch oracle whose NFL request fails and whose NBA request succeeds
with one game. -/
def exFetch (cfg : LeagueCfg) : Except String (List Game) :=
  if cfg.name = "NFL" then Except.error "network" else Except.ok [gNBApre]

/-- A failed league aborts the loop: everything after it is skipped. -/
theorem ingestLoop_error (fetch : LeagueCfg → Except String (List Game))
    (cfg : LeagueCfg) (e : String) (hf : fetch cfg = Except.error e) :
    ∀ (pre post : List LeagueCfg) (db : List Game),
      ingestLoop fetch (pre ++ cfg :: post) db = ingestLoop fetch pre db
  | [], post, db => by simp [ingestLoop, hf]
  | c :: pre, post, db => by
    simp only [List.cons_append, ingestLoop]
    cases fetch c with
    | error e' => rfl
    | ok games => exact ingestLoop_error fetch cfg e hf pre post _

/-- C5 counterexample: in the batch `[NFL, NBA]` the NFL fetch fails, the
catch outside the loop fires, and the NBA league — whose fetch succeeds —
is never ingested in that invocation: starting from an empty store the
result is empty. -/
theorem c5_failure_aborts_batch :
    exFetch cfgNBA = Except.ok [gNBApre] ∧
      ingestData exFetch [cfgNFL, cfgNBA] [] = [] := by
  constructor
  · rfl
  · rfl

/-- C5 amended: a fetch failure for one league aborts the remainder of the
batch — the leagues after the failing one are not fetched or upserted in
that invocation, and the store is left as it stood when the failure hit
(after the batch-level clear and the earlier leagues' upserts). -/
theorem c5_amended_failure_aborts (fetch : LeagueCfg → Except String (List Game))
    (pre post : List LeagueCfg) (cfg : LeagueCfg) (db : List Game) (e : String)
    (hf : fetch cfg = Except.error e) :
    ingestData fetch (pre ++ cfg :: post) db =
      ingestLoop fetch pre (clearTable (pre ++ cfg :: post) db) := by
  unfold ingestData
  exact ingestLoop_error fetch cfg e hf pre post _

/-- Witness for `c5_amended_failure_aborts` at the concrete batch
`[NFL, NBA]` with the NFL fetch failing. -/
theorem c5_amended_failure_aborts_witness :
    exFetch cfgNFL = Except.error "network" ∧
      ingestData exFetch [cfgNFL, cfgNBA] [gNFLpost] =
        ingestLoop exFetch [] (clearTable [cfgNFL, cfgNBA] [gNFLpost]) :=
  ⟨rfl, c5_amended_failure_aborts exFetch [] [cfgNBA] cfgNFL [gNFLpost] "network" rfl⟩

/-- C6 counterexample: the store holds one NFL game; the NFL fetch fails for
the whole cycle, yet the game is gone afterwards, because `ingestData`
bulk-clears the batch's leagues before attempting any fetch — the games
were deleted without a completed re-ingest. -/
theorem c6_fetch_failure_loses_rows :
    exFetch cfgNFL = Except.error "network" ∧
      ingestData exFetch [cfgNFL] [gNFLpost] = [] ∧
      gNFLpost.league = cfgNFL.name := by
  refine ⟨rfl, rfl, rfl⟩

/-- C6 amended: when the fetch for the first league of a batch fails, the
cycle ends with exactly the bulk-cleared store: the failing league's
previously stored rows have already been deleted and are not restored, so
a fetch failure does not leave that league's records unchanged. -/
theorem c6_amended_clear_precedes_fetch (fetch : LeagueCfg → Except String (List Game))
    (cfg : LeagueCfg) (post : List LeagueCfg) (db : List Game) (e : String)
    (hf : fetch cfg = Except.error e) :
    ingestData fetch (cfg :: post) db = clearTable (cfg :: post) db ∧
      ∀ g ∈ db, g.league = cfg.name → g ∉ ingestData fetch (cfg :: post) db := by
  have h1 : ingestData fetch (cfg :: post) db = clearTable (cfg :: post) db := by
    unfold ingestData
    have := ingestLoop_error fetch cfg e hf [] post (clearTable (cfg :: post) db)
    simpa [ingestLoop] using this
  refine ⟨h1, fun g _ hleague hmem => ?_⟩
  rw [h1] at hmem
  have := List.of_mem_filter hmem
  simp [hleague] at this

/-- Witness for `c6_amended_clear_precedes_fetch` at the concrete one-league
batch `[NFL]` over a store holding one NFL game. -/
theorem c6_amended_clear_precedes_fetch_witness :
    exFetch cfgNFL = Except.error "network" ∧
      (ingestData exFetch [cfgNFL] [gNFLpost] = clearTable [cfgNFL] [gNFLpost] ∧
        ∀ g ∈ [gNFLpost], g.league = cfgNFL.name →
          g ∉ ingestData exFetch [cfgNFL] [gNFLpost]) :=
  ⟨rfl, c6_amended_clear_precedes_fetch exFetch cfgNFL [] [gNFLpost] "network" rfl⟩

end WsTester

namespace WsTester

/-- `dbQueries.js` `areAllGamesFinal`: count the league's games whose start
time falls on the given day and whose state is not in `excludedStates`;
all games are final when that count is zero.  `dayOf` abstracts SQL's
`DATE(start_time)`. -/
def areAllGamesFinal (dayOf : Int → Int) (today : Int) (db : List Game)
    (league : String) : Bool :=
  (db.filter (fun g =>
    g.league = league && dayOf g.start_time = today &&
      !excludedStates.contains g.state)).length = 0

/-- A `node-schedule` job created by `startFrequentPoll`: its identity, the
league its closure captured, and whether `cancel()` has been called. -/
structure PollJob where
  id : Nat
  league : String
  cancelled : Bool
deriving DecidableEq, Repr

/-- The scheduler's mutable state: `scheduledLeagueJobs` (league → job) and
the jobs created so far.  `nextId` supplies fresh job identities. -/
structure PollState where
  registry : List (String × Nat)
  jobs : List PollJob
  nextId : Nat
deriving DecidableEq, Repr

def initPollState : PollState := ⟨[], [], 0⟩

/-- `scheduledLeagueJobs[league]` lookup. -/
def lookupReg (r : List (String × Nat)) (l : String) : Option Nat :=
  (r.find? (fun p => p.1 = l)).map (fun p => p.2)

/-- `delete scheduledLeagueJobs[league]`. -/
def eraseReg (r : List (String × Nat)) (l : String) : List (String × Nat) :=
  r.filter (fun p => !(p.1 = l : Bool))

/-- `job.cancel()` on the job with the given identity. -/
def cancelJob (jobs : List PollJob) (i : Nat) : List PollJob :=
  jobs.map (fun j => if j.id = i then { j with cancelled := true } else j)

/-- `dailySchedule.js` `startFrequentPoll` (lines 83–112): cancel and drop
any registered job for the league, then create a fresh recurring job and
register it. -/
def startFrequentPoll (league : String) (s : PollState) : PollState :=
  let s1 : PollState :=
    match lookupReg s.registry league with
    | some i => ⟨eraseReg s.registry league, cancelJob s.jobs i, s.nextId⟩
    | none => s
  ⟨s1.registry ++ [(league, s1.nextId)],
    s1.jobs ++ [⟨s1.nextId, league, false⟩],
    s1.nextId + 1⟩

/-- A single firing of the recurring job body (lines 90–109) that runs from
start to finish without interleaving with other scheduler operations — the
body of a job that is live both when the firing starts and when it
completes.  `outcome = some b` means ingest and broadcast succeeded and
`areAllGamesFinal` returned `b`; `outcome = none` means an exception was
caught before the check, in which case the body changes nothing.  A job
cancelled earlier never begins a new firing (`node-schedule` drops its
future invocations).  The async body's suspension points, and in
particular a firing that began before its job was replaced and completes
afterwards, are modelled separately by `fireBegin`/`fireEnd` below. -/
def fireJob (i : Nat) (outcome : Option Bool) (s : PollState) : PollState :=
  match s.jobs.find? (fun j => j.id = i) with
  | none => s
  | some j =>
    if j.cancelled then s
    else
      match outcome with
      | some true => ⟨eraseReg s.registry j.league, cancelJob s.jobs i, s.nextId⟩
      | _ => s

/-- The operations that touch the poll-task registry: a `startFrequentPoll`
call (issued directly by a daily run or by a one-shot start timer) and a
firing of a recurring job. -/
inductive PollOp where
  | start (league : String)
  | fire (i : Nat) (outcome : Option Bool)
deriving DecidableEq, Repr

def stepPoll (s : PollState) (op : PollOp) : PollState :=
  match op with
  | PollOp.start l => startFrequentPoll l s
  | PollOp.fire i outcome => fireJob i outcome s

def runPoll (ops : List PollOp) : PollState :=
  ops.foldl stepPoll initPollState

/-- The scheduler invariant: job ids are fresh and distinct, every registry
entry points at a live job of that league, every live job is registered
under its league, and the registry has at most one entry per league. -/
structure PollInv (s : PollState) : Prop where
  idsBelow : ∀ j ∈ s.jobs, j.id < s.nextId
  idsNodup : (s.jobs.map (fun j => j.id)).Nodup
  regWF : ∀ p ∈ s.registry,
    ∃ j ∈ s.jobs, j.id = p.2 ∧ j.league = p.1 ∧ j.cancelled = false
  liveReg : ∀ j ∈ s.jobs, j.cancelled = false → (j.league, j.id) ∈ s.registry
  regKeys : (s.registry.map (fun p => p.1)).Nodup

theorem pollInv_init : PollInv initPollState := by
  constructor <;> simp [initPollState]

/-- Cancelling one job leaves every job's identity in place. -/
theorem cancelJob_map_id (jobs : List PollJob) (i : Nat) :
    (cancelJob jobs i).map (fun j => j.id) = jobs.map (fun j => j.id) := by
  unfold cancelJob
  rw [List.map_map]
  refine List.map_congr_left (fun j _ => ?_)
  by_cases h : j.id = i <;> simp [h]

/-- With distinct identities, at most one live job exists per league. -/
theorem pollInv_one_live {s : PollState} (hs : PollInv s) :
    ∀ j1 ∈ s.jobs, ∀ j2 ∈ s.jobs,
      j1.cancelled = false → j2.cancelled = false → j1.league = j2.league →
        j1 = j2 := by
  intro j1 h1 j2 h2 hc1 hc2 hl
  have hr1 := hs.liveReg j1 h1 hc1
  have hr2 := hs.liveReg j2 h2 hc2
  rw [hl] at hr1
  have hkey := List.inj_on_of_nodup_map hs.regKeys hr1 hr2 rfl
  have hid : j1.id = j2.id := congrArg Prod.snd hkey
  exact List.inj_on_of_nodup_map hs.idsNodup h1 h2 hid

/-- Keys of the registry after an erase form a sub-multiset of the old keys. -/
theorem eraseReg_keys_sublist (r : List (String × Nat)) (l : String) :
    ((eraseReg r l).map (fun p => p.1)).Sublist (r.map (fun p => p.1)) :=
  List.Sublist.map _ (List.filter_sublist r)

theorem mem_eraseReg {r : List (String × Nat)} {l : String} {p : String × Nat}
    (h : p ∈ eraseReg r l) : p ∈ r ∧ p.1 ≠ l := by
  have := List.mem_filter.mp h
  refine ⟨this.1, ?_⟩
  simpa using this.2

theorem mem_eraseReg_of_ne {r : List (String × Nat)} {l : String} {p : String × Nat}
    (hp : p ∈ r) (hne : p.1 ≠ l) : p ∈ eraseReg r l :=
  List.mem_filter.mpr ⟨hp, by simpa using hne⟩

/-- What `lookupReg` finding an entry means. -/
theorem lookupReg_some {r : List (String × Nat)} {l : String} {i : Nat}
    (h : lookupReg r l = some i) : (l, i) ∈ r := by
  unfold lookupReg at h
  cases hf : r.find? (fun p => p.1 = l) with
  | none => rw [hf] at h; simp at h
  | some p =>
    rw [hf] at h
    have hmem := List.mem_of_find?_eq_some hf
    have hkey : p.1 = l := by simpa using List.find?_some hf
    have hval : p.2 = i := by simpa using h
    have : p = (l, i) := Prod.ext hkey hval
    rwa [this] at hmem

theorem lookupReg_none {r : List (String × Nat)} {l : String}
    (h : lookupReg r l = none) : ∀ p ∈ r, p.1 ≠ l := by
  intro p hp
  unfold lookupReg at h
  cases hf : r.find? (fun p => p.1 = l) with
  | none =>
    have := List.find?_eq_none.mp hf p hp
    simpa using this
  | some q => rw [hf] at h; simp at h

theorem lookupReg_eraseReg (r : List (String × Nat)) (l : String) :
    lookupReg (eraseReg r l) l = none := by
  have hnone : (eraseReg r l).find? (fun p => p.1 = l) = none :=
    List.find?_eq_none.mpr (fun p hp => by simpa using (mem_eraseReg hp).2)
  simp [lookupReg, hnone]

theorem mem_cancelJob {jobs : List PollJob} {i : Nat} {j' : PollJob}
    (h : j' ∈ cancelJob jobs i) :
    ∃ j ∈ jobs, j' = if j.id = i then { j with cancelled := true } else j := by
  rcases List.mem_map.mp h with ⟨j, hj, hEq⟩
  exact ⟨j, hj, hEq.symm⟩

theorem cancelJob_mem_of_mem {jobs : List PollJob} {i : Nat} {j : PollJob}
    (hj : j ∈ jobs) (hne : j.id ≠ i) : j ∈ cancelJob jobs i := by
  have h := List.mem_map_of_mem
    (fun j => if j.id = i then { j with cancelled := true } else j) hj
  have h2 : j ∈ List.map
      (fun j => if j.id = i then { j with cancelled := true } else j) jobs := by
    simpa only [if_neg hne] using h
  exact h2

theorem fireJob_eq_of_find_none {s : PollState} {i : Nat}
    (hf : s.jobs.find? (fun j => j.id = i) = none) (outcome : Option Bool) :
    fireJob i outcome s = s := by
  unfold fireJob
  rw [hf]

theorem fireJob_eq_of_cancelled {s : PollState} {i : Nat} {j : PollJob}
    (hf : s.jobs.find? (fun j => j.id = i) = some j) (hc : j.cancelled = true)
    (outcome : Option Bool) : fireJob i outcome s = s := by
  unfold fireJob
  rw [hf]
  exact if_pos hc

theorem fireJob_eq_of_error {s : PollState} {i : Nat} {j : PollJob}
    (hf : s.jobs.find? (fun j => j.id = i) = some j) (hc : j.cancelled = false) :
    fireJob i none s = s := by
  unfold fireJob
  rw [hf]
  exact if_neg (by simp [hc])

theorem fireJob_eq_of_not_final {s : PollState} {i : Nat} {j : PollJob}
    (hf : s.jobs.find? (fun j => j.id = i) = some j) (hc : j.cancelled = false) :
    fireJob i (some false) s = s := by
  unfold fireJob
  rw [hf]
  exact if_neg (by simp [hc])

theorem fireJob_eq_of_final {s : PollState} {i : Nat} {j : PollJob}
    (hf : s.jobs.find? (fun j => j.id = i) = some j) (hc : j.cancelled = false) :
    fireJob i (some true) s =
      ⟨eraseReg s.registry j.league, cancelJob s.jobs i, s.nextId⟩ := by
  unfold fireJob
  rw [hf]
  exact if_neg (by simp [hc])

/-- Appending a freshly created job and its registry entry preserves the
invariant when the league has no remaining registry entry. -/
theorem pollInv_install {s : PollState} (hs : PollInv s) (l : String)
    (hl : ∀ p ∈ s.registry, p.1 ≠ l) :
    PollInv ⟨s.registry ++ [(l, s.nextId)], s.jobs ++ [⟨s.nextId, l, false⟩],
      s.nextId + 1⟩ := by
  constructor
  · intro j hj
    rcases List.mem_append.mp hj with hj | hj
    · exact Nat.lt_succ_of_lt (hs.idsBelow j hj)
    · rw [List.mem_singleton.mp hj]
      exact Nat.lt_succ_self _
  · rw [List.map_append, List.nodup_append]
    refine ⟨hs.idsNodup, by simp, ?_⟩
    intro n hn hn'
    simp only [List.map_cons, List.map_nil, List.mem_singleton] at hn'
    rcases List.mem_map.mp hn with ⟨j, hj, hEq⟩
    exact absurd (hn' ▸ hEq) (Nat.ne_of_lt (hs.idsBelow j hj))
  · intro p hp
    rcases List.mem_append.mp hp with hp | hp
    · rcases hs.regWF p hp with ⟨j, hj, h1, h2, h3⟩
      exact ⟨j, List.mem_append_left _ hj, h1, h2, h3⟩
    · rw [List.mem_singleton.mp hp]
      exact ⟨⟨s.nextId, l, false⟩, List.mem_append_right _ (by simp), rfl, rfl, rfl⟩
  · intro j hj hc
    rcases List.mem_append.mp hj with hj | hj
    · exact List.mem_append_left _ (hs.liveReg j hj hc)
    · rw [List.mem_singleton.mp hj]
      exact List.mem_append_right _ (by simp)
  · rw [List.map_append, List.nodup_append]
    refine ⟨hs.regKeys, by simp, ?_⟩
    intro k hk hk'
    simp only [List.map_cons, List.map_nil, List.mem_singleton] at hk'
    rcases List.mem_map.mp hk with ⟨p, hp, hEq⟩
    exact hl p hp (hEq ▸ hk')

/-- Cancelling the registered job of a league and erasing its entry
preserves the invariant and leaves the league unregistered. -/
theorem pollInv_cancel_erase {s : PollState} (hs : PollInv s) {l : String} {i : Nat}
    (hlk : lookupReg s.registry l = some i) :
    PollInv ⟨eraseReg s.registry l, cancelJob s.jobs i, s.nextId⟩ := by
  have hreg : (l, i) ∈ s.registry := lookupReg_some hlk
  rcases hs.regWF (l, i) hreg with ⟨j0, hj0, hid0, hleague0, hlive0⟩
  constructor
  · intro j' hj'
    rcases mem_cancelJob hj' with ⟨j, hj, hEq⟩
    have : j'.id = j.id := by
      by_cases h : j.id = i <;> simp [hEq, h]
    rw [this]
    exact hs.idsBelow j hj
  · rw [cancelJob_map_id]
    exact hs.idsNodup
  · intro p hp
    rcases mem_eraseReg hp with ⟨hpmem, hpne⟩
    rcases hs.regWF p hpmem with ⟨j, hj, h1, h2, h3⟩
    have hne : j.id ≠ i := by
      intro hc
      have : j = j0 := List.inj_on_of_nodup_map hs.idsNodup hj hj0 (by rw [hc, hid0])
      exact hpne (by rw [← h2, this, hleague0])
    exact ⟨j, cancelJob_mem_of_mem hj hne, h1, h2, h3⟩
  · intro j' hj' hc
    rcases mem_cancelJob hj' with ⟨j, hj, hEq⟩
    by_cases h : j.id = i
    · rw [hEq] at hc
      simp [h] at hc
    · rw [hEq] at hc ⊢
      simp only [h, if_false]
      simp only [h, if_false] at hc
      have hmem := hs.liveReg j hj hc
      refine mem_eraseReg_of_ne hmem ?_
      intro hleague
      have hreg' : (j.league, i) ∈ s.registry := by
        have : ((j.league, j.id).1, i) ∈ s.registry := by
          rw [hleague]
          exact hreg
        exact this
      have hkey := List.inj_on_of_nodup_map hs.regKeys hmem hreg' rfl
      exact h (congrArg Prod.snd hkey)
  · exact (eraseReg_keys_sublist s.registry l).nodup hs.regKeys

/-- `startFrequentPoll` preserves the invariant. -/
theorem pollInv_start {s : PollState} (hs : PollInv s) (l : String) :
    PollInv (startFrequentPoll l s) := by
  unfold startFrequentPoll
  cases hlk : lookupReg s.registry l with
  | none =>
    simp only []
    exact pollInv_install hs l (lookupReg_none hlk)
  | some i =>
    simp only []
    exact pollInv_install (pollInv_cancel_erase hs hlk) l
      (fun p hp => (mem_eraseReg hp).2)

/-- `fireJob` preserves the invariant. -/
theorem pollInv_fire {s : PollState} (hs : PollInv s) (i : Nat)
    (outcome : Option Bool) : PollInv (fireJob i outcome s) := by
  cases hf : s.jobs.find? (fun j => j.id = i) with
  | none => rw [fireJob_eq_of_find_none hf]; exact hs
  | some j =>
    have hj : j ∈ s.jobs := List.mem_of_find?_eq_some hf
    have hid : j.id = i := by simpa using List.find?_some hf
    by_cases hc : j.cancelled
    · rw [fireJob_eq_of_cancelled hf hc]
      exact hs
    · have hlive : j.cancelled = false := Bool.eq_false_iff.mpr hc
      cases outcome with
      | none => rw [fireJob_eq_of_error hf hlive]; exact hs
      | some b =>
        cases b with
        | false => rw [fireJob_eq_of_not_final hf hlive]; exact hs
        | true =>
          rw [fireJob_eq_of_final hf hlive]
          constructor
          · intro j' hj'
            rcases mem_cancelJob hj' with ⟨j1, hj1, hEq⟩
            have : j'.id = j1.id := by
              by_cases h : j1.id = i <;> simp [hEq, h]
            rw [this]
            exact hs.idsBelow j1 hj1
          · rw [cancelJob_map_id]
            exact hs.idsNodup
          · intro p hp
            rcases mem_eraseReg hp with ⟨hpmem, hpne⟩
            rcases hs.regWF p hpmem with ⟨j1, hj1, h1, h2, h3⟩
            have hne : j1.id ≠ i := by
              intro hcid
              have : j1 = j := List.inj_on_of_nodup_map hs.idsNodup hj1 hj
                (by rw [hcid, hid])
              exact hpne (by rw [← h2, this])
            exact ⟨j1, cancelJob_mem_of_mem hj1 hne, h1, h2, h3⟩
          · intro j' hj' hc'
            rcases mem_cancelJob hj' with ⟨j1, hj1, hEq⟩
            by_cases h : j1.id = i
            · rw [hEq] at hc'
              simp [h] at hc'
            · rw [hEq] at hc' ⊢
              simp only [h, if_false]
              simp only [h, if_false] at hc'
              have hmem := hs.liveReg j1 hj1 hc'
              refine mem_eraseReg_of_ne hmem ?_
              intro hleague
              have := pollInv_one_live hs j1 hj1 j hj hc' hlive hleague
              exact h (by rw [this, hid])
          · exact (eraseReg_keys_sublist s.registry j.league).nodup hs.regKeys

theorem pollInv_foldl : ∀ (ops : List PollOp) (s : PollState),
    PollInv s → PollInv (ops.foldl stepPoll s)
  | [], _, hs => hs
  | op :: ops, s, hs => by
    refine pollInv_foldl ops (stepPoll s op) ?_
    cases op with
    | start l => exact pollInv_start hs l
    | fire i outcome => exact pollInv_fire hs i outcome

/-- Every state reachable from the initial state satisfies the invariant. -/
theorem pollInv_run (ops : List PollOp) : PollInv (runPoll ops) :=
  pollInv_foldl ops initPollState pollInv_init

/-- In an invariant state, searching the job list by a member's identity
finds exactly that job. -/
theorem find_job_of_mem {s : PollState} (hs : PollInv s) {j : PollJob}
    (hj : j ∈ s.jobs) : s.jobs.find? (fun j' => j'.id = j.id) = some j := by
  cases hf : s.jobs.find? (fun j' => j'.id = j.id) with
  | none =>
    have := List.find?_eq_none.mp hf j hj
    simp at this
  | some a =>
    have ha : a ∈ s.jobs := List.mem_of_find?_eq_some hf
    have hid : a.id = j.id := by simpa using List.find?_some hf
    rw [List.inj_on_of_nodup_map hs.idsNodup ha hj hid]

/-- C3: a live poll task fired with the all-games-final check returning
`true` cancels itself and removes its registry entry; fired with the check
returning `false`, or with an exception before the check, it changes
nothing and keeps running. -/
theorem c3_self_cancel_on_all_final (ops : List PollOp) (j : PollJob)
    (dayOf : Int → Int) (today : Int) (db : List Game)
    (hmem : j ∈ (runPoll ops).jobs) (hlive : j.cancelled = false) :
    (areAllGamesFinal dayOf today db j.league = true →
      (∀ j' ∈ (fireJob j.id (some (areAllGamesFinal dayOf today db j.league))
            (runPoll ops)).jobs, j'.id = j.id → j'.cancelled = true) ∧
        lookupReg (fireJob j.id (some (areAllGamesFinal dayOf today db j.league))
          (runPoll ops)).registry j.league = none) ∧
      (areAllGamesFinal dayOf today db j.league = false →
        fireJob j.id (some (areAllGamesFinal dayOf today db j.league))
          (runPoll ops) = runPoll ops) ∧
      fireJob j.id none (runPoll ops) = runPoll ops := by
  have hs := pollInv_run ops
  have hf := find_job_of_mem hs hmem
  refine ⟨fun htrue => ?_, fun hfalse => ?_, fireJob_eq_of_error hf hlive⟩
  · rw [htrue, fireJob_eq_of_final hf hlive]
    constructor
    · intro j' hj' hid'
      rcases mem_cancelJob hj' with ⟨j1, hj1, hEq⟩
      by_cases h : j1.id = j.id
      · rw [hEq, if_pos h]
      · rw [hEq, if_neg h] at hid'
        exact absurd hid' h
    · exact lookupReg_eraseReg _ _
  · rw [hfalse, fireJob_eq_of_not_final hf hlive]

/-- Witness for `c3_self_cancel_on_all_final`: one started NFL task over a
store whose only NFL game today is already `post`, so the check is true and
the firing cancels and unregisters the task. -/
theorem c3_self_cancel_on_all_final_witness :
    (⟨0, "NFL", false⟩ : PollJob) ∈ (runPoll [PollOp.start "NFL"]).jobs ∧
      areAllGamesFinal (fun t => t / 86400000) 0 [gNFLpost] "NFL" = true ∧
      (∀ j' ∈ (fireJob 0 (some (areAllGamesFinal (fun t => t / 86400000) 0
          [gNFLpost] "NFL")) (runPoll [PollOp.start "NFL"])).jobs,
        j'.id = 0 → j'.cancelled = true) ∧
      lookupReg (fireJob 0 (some (areAllGamesFinal (fun t => t / 86400000) 0
        [gNFLpost] "NFL")) (runPoll [PollOp.start "NFL"])).registry "NFL" = none := by
  have T := c3_self_cancel_on_all_final [PollOp.start "NFL"] ⟨0, "NFL", false⟩
    (fun t => t / 86400000) 0 [gNFLpost] (by decide) rfl
  exact ⟨by decide, by decide, (T.1 (by decide)).1, (T.1 (by decide)).2⟩

end WsTester

namespace WsTester

/-- The scheduler state refined with in-flight firings.  The job body
(`dailySchedule.js` lines 90–109) is an async function that suspends at its
awaits; a firing that has begun but not yet completed is recorded in
`inflight` together with the league its closure captured. -/
structure AsyncPollState where
  registry : List (String × Nat)
  jobs : List PollJob
  inflight : List (Nat × String)
  nextId : Nat
deriving DecidableEq, Repr

def initAsyncPollState : AsyncPollState := ⟨[], [], [], 0⟩

/-- `startFrequentPoll` on the refined state.  The function body is
synchronous JavaScript, so it runs atomically on the event loop; `cancel()`
on the replaced job only stops its future invocations — a firing of it that
is already in flight stays in flight. -/
def startFrequentPollAsync (league : String) (s : AsyncPollState) :
    AsyncPollState :=
  let s1 : AsyncPollState :=
    match lookupReg s.registry league with
    | some i => ⟨eraseReg s.registry league, cancelJob s.jobs i, s.inflight, s.nextId⟩
    | none => s
  ⟨s1.registry ++ [(league, s1.nextId)],
    s1.jobs ++ [⟨s1.nextId, league, false⟩],
    s1.inflight,
    s1.nextId + 1⟩

/-- A firing of job `i` begins: `node-schedule` invokes the body only while
the job is not cancelled.  The body immediately suspends at
`await ingestData(...)`, so the firing stays in flight until `fireEnd`. -/
def fireBegin (i : Nat) (s : AsyncPollState) : AsyncPollState :=
  match s.jobs.find? (fun j => j.id = i) with
  | none => s
  | some j =>
    if j.cancelled then s
    else ⟨s.registry, s.jobs, s.inflight ++ [(i, j.league)], s.nextId⟩

/-- An in-flight firing completes (`dailySchedule.js` lines 100–108).  It
runs to completion even if its job was cancelled while it was suspended —
cancellation is not preemptive.  With the all-final check true it executes
`job.cancel()` on the captured job and then
`delete scheduledLeagueJobs[league]` (line 104): the delete is by league
key and removes whatever job is registered under that league at completion
time, including a replacement installed while this firing was in flight.
`outcome = some b` is the check's value; `none` is an exception caught
before the check. -/
def fireEnd (i : Nat) (league : String) (outcome : Option Bool)
    (s : AsyncPollState) : AsyncPollState :=
  if (i, league) ∈ s.inflight then
    let s1 : AsyncPollState :=
      ⟨s.registry, s.jobs, s.inflight.erase (i, league), s.nextId⟩
    match outcome with
    | some true =>
      ⟨eraseReg s1.registry league, cancelJob s1.jobs i, s1.inflight, s1.nextId⟩
    | _ => s1
  else s

inductive AsyncPollOp where
  | start (league : String)
  | fireBegin (i : Nat)
  | fireEnd (i : Nat) (league : String) (outcome : Option Bool)
deriving DecidableEq, Repr

def stepAsyncPoll (s : AsyncPollState) (op : AsyncPollOp) : AsyncPollState :=
  match op with
  | AsyncPollOp.start l => startFrequentPollAsync l s
  | AsyncPollOp.fireBegin i => fireBegin i s
  | AsyncPollOp.fireEnd i l outcome => fireEnd i l outcome s

def runAsyncPoll (ops : List AsyncPollOp) : AsyncPollState :=
  ops.foldl stepAsyncPoll initAsyncPollState

/-- The interleaving that breaks the one-task-per-league invariant: job 0
starts and begins a firing; a daily/hourly run replaces it with job 1
(cancelling job 0, which completes anyway); job 0's completion sees the
all-final check true and deletes the league's registry entry — job 1's —
leaving job 1 live but unregistered; the next start finds no entry and
installs job 2 without cancelling job 1. -/
def c2FailingTrace : List AsyncPollOp :=
  [AsyncPollOp.start "NFL",
    AsyncPollOp.fireBegin 0,
    AsyncPollOp.start "NFL",
    AsyncPollOp.fireEnd 0 "NFL" (some true),
    AsyncPollOp.start "NFL"]

/-- C2: the claimed invariant fails on the program.  After the trace
`[start NFL, fireBegin 0, start NFL, fireEnd 0 (check=true), start NFL]`
jobs 1 and 2 are two distinct concurrently live ("not cancelled") tasks for
the same league: the in-flight firing of replaced job 0 deleted job 1's
registry entry (line 104), so the third `startFrequentPoll` installed job 2
without cancelling job 1. -/
theorem c2_stale_delete_two_live_tasks :
    (⟨1, "NFL", false⟩ : PollJob) ∈ (runAsyncPoll c2FailingTrace).jobs ∧
      (⟨2, "NFL", false⟩ : PollJob) ∈ (runAsyncPoll c2FailingTrace).jobs ∧
      (⟨1, "NFL", false⟩ : PollJob).league = (⟨2, "NFL", false⟩ : PollJob).league ∧
      (⟨1, "NFL", false⟩ : PollJob) ≠ (⟨2, "NFL", false⟩ : PollJob) := by
  refine ⟨by decide, by decide, rfl, by decide⟩

end WsTester

namespace WsTester

/-- One row of the `getNotFinalGamesToday` result as consumed by
`runDailySchedule` (league, start time, state). -/
structure ScheduleRow where
  league : String
  start_time : Int
  state : String
deriving DecidableEq, Repr

/-- One entry of `leagueMap`: earliest start time seen so far and whether
any row of the league is in progress. -/
structure LeagueInfo where
  earliestStart : Int
  hasInProgress : Bool
deriving DecidableEq, Repr

def lookupInfo (m : List (String × LeagueInfo)) (l : String) : Option LeagueInfo :=
  (m.find? (fun p => p.1 = l)).map (fun p => p.2)

def updateInfo (m : List (String × LeagueInfo)) (l : String)
    (info : LeagueInfo) : List (String × LeagueInfo) :=
  m.map (fun p => if p.1 = l then (l, info) else p)

/-- The body of the `for (const row of rows)` loop building `leagueMap`
(`dailySchedule.js` lines 33–51): create the entry with
`hasInProgress:false`, lower `earliestStart` on strictly earlier rows, then
set `hasInProgress` when the row's state is `"in"` (the entry always exists
at that point; the `none` arm is unreachable). -/
def leagueMapStep (m : List (String × LeagueInfo)) (row : ScheduleRow) :
    List (String × LeagueInfo) :=
  let m1 :=
    match lookupInfo m row.league with
    | none => m ++ [(row.league, ⟨row.start_time, false⟩)]
    | some info =>
      if row.start_time < info.earliestStart then
        updateInfo m row.league ⟨row.start_time, info.hasInProgress⟩
      else m
  if row.state = "in" then
    match lookupInfo m1 row.league with
    | some info => updateInfo m1 row.league ⟨info.earliestStart, true⟩
    | none => m1
  else m1

def buildLeagueMap (rows : List ScheduleRow) : List (String × LeagueInfo) :=
  rows.foldl leagueMapStep []

/-- What step 3 of the daily run does for one league: start the frequent
poll at once, or hand `schedule.scheduleJob` a one-shot timer date. -/
inductive PollAction where
  | startNow
  | scheduleAt (t : Int)
deriving DecidableEq, Repr

/-- `dailySchedule.js` lines 54–68: `pollStartTime` is the earliest start
minus 15 minutes; start now when `pollStartTime < now` (strict) or a game
is in progress, otherwise schedule a timer at `pollStartTime`. -/
def dailyPollDecision (now : Int) (info : LeagueInfo) : PollAction :=
  let pollStartTime := info.earliestStart - 15 * 60000
  if pollStartTime < now || info.hasInProgress then PollAction.startNow
  else PollAction.scheduleAt pollStartTime

/-- The decision part of `runDailySchedule`: one action per league of the
grouped rows. -/
def runDailySchedule (rows : List ScheduleRow) (now : Int) :
    List (String × PollAction) :=
  (buildLeagueMap rows).map (fun p => (p.1, dailyPollDecision now p.2))

/-- C4 counterexample: a league whose only row starts exactly 15 minutes
from now has `pollStartTime = now`; the code's comparison is strict, so the
daily run hands it to a one-shot timer at `now` instead of starting the
frequent poll immediately. -/
theorem c4_boundary_not_immediate :
    runDailySchedule [⟨"NHL", 900000, "pre"⟩] 0 =
        [("NHL", PollAction.scheduleAt 0)] ∧
      PollAction.scheduleAt 0 ≠ PollAction.startNow := by
  constructor
  · decide
  · decide

/-- C4 amended: the daily run starts a league's poll immediately exactly
when `pollStartTime` is strictly in the past or the league has a live game;
in the boundary case `pollStartTime = now` with no live game the league is
scheduled by a one-shot timer at `now`, not started immediately. -/
theorem c4_strict_past_comparison (now : Int) (info : LeagueInfo) :
    (dailyPollDecision now info = PollAction.startNow ↔
      (info.earliestStart - 15 * 60000 < now ∨ info.hasInProgress = true)) ∧
      (info.earliestStart - 15 * 60000 = now → info.hasInProgress = false →
        dailyPollDecision now info = PollAction.scheduleAt now) ∧
      ∀ (rows : List ScheduleRow) (l : String), (l, info) ∈ buildLeagueMap rows →
        (l, dailyPollDecision now info) ∈ runDailySchedule rows now := by
  refine ⟨?_, ?_, ?_⟩
  · unfold dailyPollDecision
    by_cases h : (info.earliestStart - 15 * 60000 < now ∨ info.hasInProgress = true)
    · rw [if_pos (by simpa using h)]
      exact iff_of_true rfl h
    · rw [if_neg (by simpa using h)]
      exact iff_of_false (by simp) h
  · intro hEq hprog
    unfold dailyPollDecision
    rw [if_neg (by simp [hprog]; omega), hEq]
  · intro rows l hmem
    exact List.mem_map_of_mem _ hmem

/-- Witness for `c4_strict_past_comparison` at `now = 0` and a league whose
earliest start is in 15 minutes with no live game. -/
theorem c4_strict_past_comparison_witness :
    ((900000 : Int) - 15 * 60000 = 0) ∧
      dailyPollDecision 0 ⟨900000, false⟩ = PollAction.scheduleAt 0 :=
  ⟨by decide, (c4_strict_past_comparison 0 ⟨900000, false⟩).2.1 (by decide) rfl⟩

end WsTester

namespace WsTester

/-- `Map.set` of the JS `clientFilters` map: overwrite the entry of an
existing key in place, otherwise append a new entry. -/
def mapSet {α β : Type} [DecidableEq α] (m : List (α × β)) (k : α) (v : β) :
    List (α × β) :=
  if m.any (fun p => p.1 = k) then
    m.map (fun p => if p.1 = k then (k, v) else p)
  else
    m ++ [(k, v)]

/-- `Map.get` of the JS `clientFilters` map. -/
def mapGet {α β : Type} [DecidableEq α] (m : List (α × β)) (k : α) : Option β :=
  (m.find? (fun p => p.1 = k)).map (fun p => p.2)

/-- When no entry has the key, the overwrite pass is the identity. -/
theorem mapSet_map_eq_self {α β : Type} [DecidableEq α] {m : List (α × β)}
    {k : α} (v : β) (h : m.any (fun p => p.1 = k) = false) :
    m.map (fun p => if p.1 = k then (k, v) else p) = m := by
  have hall : ∀ p ∈ m, ¬(p.1 = k) := by
    intro p hp hc
    have : m.any (fun p => p.1 = k) = true := by
      rw [List.any_eq_true]
      exact ⟨p, hp, by simpa using hc⟩
    rw [this] at h
    exact Bool.true_eq_false.mp h
  have heq : m.map (fun p => if p.1 = k then (k, v) else p) = m.map id :=
    List.map_congr_left (fun p hp => if_neg (hall p hp))
  rw [heq, List.map_id]

theorem mapGet_cons_of_eq {α β : Type} [DecidableEq α] {p : α × β} {c : α}
    (m : List (α × β)) (h : p.1 = c) : mapGet (p :: m) c = some p.2 := by
  rw [mapGet, List.find?_cons_of_pos _ (by simpa using h)]
  rfl

theorem mapGet_cons_of_ne {α β : Type} [DecidableEq α] {p : α × β} {c : α}
    (m : List (α × β)) (h : ¬(p.1 = c)) : mapGet (p :: m) c = mapGet m c := by
  rw [mapGet, List.find?_cons_of_neg _ (by simpa using h)]
  rfl

theorem mapSet_cons_found {α β : Type} [DecidableEq α] {p : α × β} {k : α}
    (m : List (α × β)) (v : β) (hany : (p :: m).any (fun q => q.1 = k) = true) :
    mapSet (p :: m) k v =
      (if p.1 = k then (k, v) else p) ::
        m.map (fun q => if q.1 = k then (k, v) else q) := by
  rw [mapSet, if_pos hany, List.map_cons]

theorem mapSet_cons_fresh {α β : Type} [DecidableEq α] {p : α × β} {k : α}
    (m : List (α × β)) (v : β) (hany : (p :: m).any (fun q => q.1 = k) = false) :
    mapSet (p :: m) k v = p :: (m ++ [(k, v)]) := by
  rw [mapSet, if_neg (by rw [hany]; simp), List.cons_append]

/-- `Map.set` followed by `Map.get` of the same key yields the new value. -/
theorem mapGet_mapSet_same {α β : Type} [DecidableEq α] :
    ∀ (m : List (α × β)) (k : α) (v : β), mapGet (mapSet m k v) k = some v
  | [], k, v => by simp [mapSet, mapGet]
  | p :: m, k, v => by
    by_cases hp : p.1 = k
    · have hany : (p :: m).any (fun q => q.1 = k) = true := by simp [hp]
      rw [mapSet_cons_found m v hany, if_pos hp, mapGet_cons_of_eq _ rfl]
    · cases ham : m.any (fun q => q.1 = k) with
      | true =>
        have hany : (p :: m).any (fun q => q.1 = k) = true := by simp [ham]
        have hm : mapSet m k v = m.map (fun q => if q.1 = k then (k, v) else q) := by
          rw [mapSet, if_pos ham]
        rw [mapSet_cons_found m v hany, if_neg hp, mapGet_cons_of_ne _ hp, ← hm]
        exact mapGet_mapSet_same m k v
      | false =>
        have hany : (p :: m).any (fun q => q.1 = k) = false := by simp [hp, ham]
        have hm : mapSet m k v = m ++ [(k, v)] := by
          rw [mapSet, if_neg (by rw [ham]; simp)]
        rw [mapSet_cons_fresh m v hany, mapGet_cons_of_ne _ hp, ← hm]
        exact mapGet_mapSet_same m k v

/-- `Map.set` leaves every other key's binding unchanged. -/
theorem mapGet_mapSet_other {α β : Type} [DecidableEq α] :
    ∀ (m : List (α × β)) (k : α) (v : β) (c : α), c ≠ k →
      mapGet (mapSet m k v) c = mapGet m c
  | [], k, v, c, hc => by
    have hkc : ¬(k = c) := fun h => hc h.symm
    simp [mapSet, mapGet, hkc]
  | p :: m, k, v, c, hc => by
    by_cases hp : p.1 = k
    · have hany : (p :: m).any (fun q => q.1 = k) = true := by simp [hp]
      have hpc : ¬(p.1 = c) := by
        rw [hp]
        exact fun h => hc h.symm
      rw [mapSet_cons_found m v hany, if_pos hp,
        mapGet_cons_of_ne _ (show ¬((k, v).1 = c) from fun h => hc h.symm),
        mapGet_cons_of_ne _ hpc]
      cases ham : m.any (fun q => q.1 = k) with
      | true =>
        have hm : mapSet m k v = m.map (fun q => if q.1 = k then (k, v) else q) := by
          rw [mapSet, if_pos ham]
        rw [← hm]
        exact mapGet_mapSet_other m k v c hc
      | false =>
        rw [mapSet_map_eq_self v ham]
    · by_cases hpc : p.1 = c
      · cases ham : m.any (fun q => q.1 = k) with
        | true =>
          have hany : (p :: m).any (fun q => q.1 = k) = true := by simp [ham]
          rw [mapSet_cons_found m v hany, if_neg hp, mapGet_cons_of_eq _ hpc,
            mapGet_cons_of_eq _ hpc]
        | false =>
          have hany : (p :: m).any (fun q => q.1 = k) = false := by simp [hp, ham]
          rw [mapSet_cons_fresh m v hany, mapGet_cons_of_eq _ hpc,
            mapGet_cons_of_eq _ hpc]
      · cases ham : m.any (fun q => q.1 = k) with
        | true =>
          have hany : (p :: m).any (fun q => q.1 = k) = true := by simp [ham]
          have hm : mapSet m k v = m.map (fun q => if q.1 = k then (k, v) else q) := by
            rw [mapSet, if_pos ham]
          rw [mapSet_cons_found m v hany, if_neg hp, mapGet_cons_of_ne _ hpc,
            mapGet_cons_of_ne _ hpc, ← hm]
          exact mapGet_mapSet_other m k v c hc
        | false =>
          have hany : (p :: m).any (fun q => q.1 = k) = false := by simp [hp, ham]
          have hm : mapSet m k v = m ++ [(k, v)] := by
            rw [mapSet, if_neg (by rw [ham]; simp)]
          rw [mapSet_cons_fresh m v hany, mapGet_cons_of_ne _ hpc,
            mapGet_cons_of_ne _ hpc, ← hm]
          exact mapGet_mapSet_other m k v c hc

/-- An outbound `filtered_data` envelope: the connection it is sent to, the
game list, the echoed filters and the count. -/
structure OutMsg where
  target : Nat
  data : List Game
  filters : List String
  count : Nat
deriving DecidableEq, Repr

/-- The `filter_request` arm of the WebSocket message handler
(`api.js` lines 139–154): store the client's filters
(`clientFilters.set(ws, data.filters)` — a total replacement), evaluate
them against the store, and send one `filtered_data` reply to that same
client only. -/
def handleFilterRequest (db : List Game) (clientFilters : List (Nat × List String))
    (ws : Nat) (filters : List String) :
    List (Nat × List String) × List OutMsg :=
  let newFilters := mapSet clientFilters ws filters
  let filteredGames := getFilteredGames db filters
  (newFilters, [⟨ws, filteredGames, filters, filteredGames.length⟩])

/-- C9: handling a `filter_request` replaces the requesting connection's
stored selection outright (the new binding is the request's filter list, no
merge with the previous one), leaves every other connection's stored
selection unchanged, and emits exactly one message — the filtered snapshot —
addressed to the requesting connection. -/
theorem c9_filter_request_frame (db : List Game) (cf : List (Nat × List String))
    (ws : Nat) (F : List String) :
    mapGet (handleFilterRequest db cf ws F).1 ws = some F ∧
      (∀ c : Nat, c ≠ ws → mapGet (handleFilterRequest db cf ws F).1 c = mapGet cf c) ∧
      (handleFilterRequest db cf ws F).2 =
        [⟨ws, getFilteredGames db F, F, (getFilteredGames db F).length⟩] :=
  ⟨mapGet_mapSet_same cf ws F,
    fun c hc => mapGet_mapSet_other cf ws F c hc, rfl⟩

/-- Witness for `c9_filter_request_frame`: two connected clients; client 1
requests `["NFL"]`, client 2's stored selection is untouched and only
client 1 is messaged. -/
theorem c9_filter_request_frame_witness :
    mapGet (handleFilterRequest sampleDb [(1, ["MLB"]), (2, [])] 1 ["NFL"]).1 1 =
        some ["NFL"] ∧
      ((2 : Nat) ≠ 1) ∧
      mapGet (handleFilterRequest sampleDb [(1, ["MLB"]), (2, [])] 1 ["NFL"]).1 2 =
        mapGet [(1, ["MLB"]), (2, [])] 2 ∧
      (handleFilterRequest sampleDb [(1, ["MLB"]), (2, [])] 1 ["NFL"]).2 =
        [⟨1, getFilteredGames sampleDb ["NFL"], ["NFL"],
          (getFilteredGames sampleDb ["NFL"]).length⟩] :=
  ⟨(c9_filter_request_frame sampleDb [(1, ["MLB"]), (2, [])] 1 ["NFL"]).1,
    by decide,
    (c9_filter_request_frame sampleDb [(1, ["MLB"]), (2, [])] 1 ["NFL"]).2.1 2
      (by decide),
    (c9_filter_request_frame sampleDb [(1, ["MLB"]), (2, [])] 1 ["NFL"]).2.2⟩

end WsTester
